import Mathlib

/-!
# etcd2 health-check input: `plugins/inputs/etcd2/etcd2.go`

A shallow embedding of `Etcd2.connectTo` and `Etcd2.Gather`.

Everything `Gather` does happens through calls into libraries outside the
plugin: `transport.NewTransport`, `client.New`, `MembersAPI.List`,
`KeysAPI.Set`, `time.Now`, `time.Since` and `Accumulator.AddFields`.  The
embedding makes these calls explicit:

* every external call is logged as an `Event`, in program order;
* what an external call answers is decided by a `World`, a family of oracles
  that are consulted with the history of all external calls made so far, so a
  `World` can stand for any deterministic environment (servers that fail,
  time out, change their answer from one call to the next, ...);
* each function of the plugin takes the history `h` before it runs and returns
  its result together with the list of events it appended.

Durations and clock readings are integers counting nanoseconds. A `float64` is
a finite IEEE 754 binary64 value, and every `float64` operation rounds its exact
result to the nearest such value, ties to even.
-/

namespace Etcd2Spec

/-! ## Library types -/

/-- Go `time.Duration`: a number of nanoseconds. -/
abbrev Duration := Int

/-- Go `time.Second`. -/
def Second : Duration := 1000000000

/-- Largest `time.Duration` (an `int64`). -/
def maxDuration : Duration := 9223372036854775807

/-- Smallest `time.Duration` (an `int64`). -/
def minDuration : Duration := -9223372036854775808

/-- Go `Time.Sub` on clock readings in nanoseconds: the difference, saturated to
the range of `time.Duration`. -/
def timeSub (t u : Int) : Duration :=
  if t - u > maxDuration then maxDuration
  else if t - u < minDuration then minDuration
  else t - u

/-- A finite IEEE 754 binary64 value, `mant * 2 ^ exp`. The values built by
`F64.round` are in canonical form: zero is `⟨0, 0⟩`, a normal value has
`2 ^ 52 ≤ |mant| < 2 ^ 53`, a subnormal value has `exp = -1074`. Infinities and
NaN are not modelled: the values computed from an `int64` duration stay far
below `2 ^ 1024`, and the only divisor is the constant `1e9`. -/
structure F64 where
  mant : Int
  exp : Int
deriving DecidableEq, Repr

/-- The integer nearest to `n / d`, the even one on a tie (`0 < d`). -/
def roundHalfEven (n d : Nat) : Nat :=
  let q := n / d
  let r := n % d
  if 2 * r < d then q else if d < 2 * r then q + 1 else if q % 2 = 0 then q else q + 1

/-- The position of the highest set bit of `n`, that is `⌊log₂ n⌋` for `0 < n`;
`fuel` bounds the number of halvings, `n` itself is enough. -/
def bitLog2 : Nat → Nat → Nat
  | 0, _ => 0
  | fuel + 1, n => if n < 2 then 0 else bitLog2 fuel (n / 2) + 1

/-- `⌊log₂ (n / d)⌋` for `0 < n` and `0 < d`. -/
def fracLog2 (n d : Nat) : Int :=
  let e0 : Int := (bitLog2 n n : Int) - (bitLog2 d d : Int)
  if 0 ≤ e0 then (if d * 2 ^ e0.toNat ≤ n then e0 else e0 - 1)
  else (if d ≤ n * 2 ^ (-e0).toNat then e0 else e0 - 1)

/-- Rounding of the fraction `n / d` (`0 < d`) to binary64, as mantissa and
exponent: the exponent of the last place is `⌊log₂ (n / d)⌋ - 52`, not below
`-1074`, and the mantissa is `n / d` in units of the last place, rounded to the
nearest integer, ties to even. -/
def F64.roundNat (n d : Nat) : Nat × Int :=
  if n = 0 then (0, 0) else
  let e := max (fracLog2 n d) (-1022)
  let s := e - 52
  let m :=
    if 0 ≤ s then roundHalfEven n (d * 2 ^ s.toNat) else roundHalfEven (n * 2 ^ (-s).toNat) d
  if m = 2 ^ 53 then (2 ^ 52, s + 1) else (m, s)

/-- Rounding of the fraction `n / d` (`0 < d`) to binary64. -/
def F64.round (n : Int) (d : Nat) : F64 :=
  let r := F64.roundNat n.natAbs d
  if r.1 = 0 then ⟨0, 0⟩ else ⟨if n < 0 then -(r.1 : Int) else (r.1 : Int), r.2⟩

/-- Numerator of the exact value of `x` as a fraction `num / den`. -/
def F64.num (x : F64) : Int := if 0 ≤ x.exp then x.mant * 2 ^ x.exp.toNat else x.mant

/-- Denominator of the exact value of `x` as a fraction `num / den`. -/
def F64.den (x : F64) : Nat := if 0 ≤ x.exp then 1 else 2 ^ (-x.exp).toNat

/-- The exact value of `x`. -/
def F64.toRat (x : F64) : ℚ := (x.mant : ℚ) * (2 : ℚ) ^ x.exp

/-- Go `float64(i)` for an integer `i`. -/
def F64.ofInt (i : Int) : F64 := F64.round i 1

/-- Go `x + y` on `float64`. -/
def F64.add (x y : F64) : F64 := F64.round (x.num * y.den + y.num * x.den) (x.den * y.den)

/-- Go `x * y` on `float64`. -/
def F64.mul (x y : F64) : F64 := F64.round (x.num * y.num) (x.den * y.den)

/-- Go `x / y` on `float64`, for `y` other than zero. -/
def F64.div (x y : F64) : F64 :=
  if y.mant = 0 then ⟨0, 0⟩
  else F64.round (if y.num < 0 then -(x.num * y.den) else x.num * y.den) (x.den * y.num.natAbs)

instance : Add F64 := ⟨F64.add⟩

instance : Mul F64 := ⟨F64.mul⟩

instance : Div F64 := ⟨F64.div⟩

instance (n : Nat) : OfNat F64 n := ⟨F64.ofInt n⟩

/-- Go `Duration.Seconds`: `float64(d / Second) + float64(d % Second) / 1e9`,
with Go's truncating integer division and `float64` arithmetic. -/
def Duration.Seconds (d : Duration) : F64 :=
  F64.ofInt (Int.tdiv d Second) + F64.ofInt (Int.tmod d Second) / 1000000000

/-- The `transport.TLSInfo` fields set by the plugin. -/
structure TLSInfo where
  CAFile : String
  CertFile : String
  KeyFile : String
deriving DecidableEq, Repr

/-- The value returned by `transport.NewTransport(tls, timeout)`: it is
determined by the two arguments it was built from. -/
structure Transport where
  tls : TLSInfo
  dialTimeout : Duration
deriving DecidableEq, Repr

/-- The `client.Config` fields set by the plugin. -/
structure Config where
  Transport : Transport
  Endpoints : List String
  HeaderTimeoutPerRequest : Duration
deriving DecidableEq, Repr

/-- The value returned by `client.New(cfg)`: a client for that configuration. -/
structure Client where
  cfg : Config
deriving DecidableEq, Repr

/-- The fields of `client.Member` read by the plugin. -/
structure Member where
  ID : String
  Name : String
deriving DecidableEq, Repr

/-- A value stored in the `map[string]interface{}` of fields: the plugin stores
a `float64` and an `int`. -/
inductive FieldValue where
  | float (x : F64)
  | int (n : Int)
deriving DecidableEq, Repr

/-- A Go map with string keys, as an association list with distinct keys. -/
abbrev GoMap (V : Type) := List (String × V)

/-- Go `m[k] = v`: overwrite the entry of `k` when there is one, add it
otherwise. -/
def GoMap.assign {V : Type} : GoMap V → String → V → GoMap V
  | [], k, v => [(k, v)]
  | (k1, v1) :: rest, k, v =>
    if k1 = k then (k, v) :: rest else (k1, v1) :: GoMap.assign rest k v

/-- One call of `Accumulator.AddFields(measurement, fields, tags)`. -/
structure AddFieldsCall where
  measurement : String
  fields : GoMap FieldValue
  tags : GoMap String
deriving DecidableEq, Repr

/-- One call of `KeysAPI.Set(ctx, key, value, nil)` on the keys API of client
`cli`, where `ctx` carries the timeout `timeout`. -/
structure SetCall where
  cli : Client
  timeout : Duration
  key : String
  value : String
deriving DecidableEq, Repr

/-- The external calls made by the plugin. -/
inductive Event where
  | NewTransport (tls : TLSInfo) (timeout : Duration)
  | ClientNew (cfg : Config)
  | MembersList (cln : Client) (timeout : Duration)
  | KeysSet (call : SetCall)
  | Now
  | Since (start : Int)
  | AddFields (call : AddFieldsCall)
deriving DecidableEq, Repr

/-- The environment. Each oracle receives the history of external calls made
before the call it answers, and the arguments of that call. `none` stands for a
`nil` error. `clock h` is the reading of the clock at the moment the program
has made exactly the calls of `h`. -/
structure World where
  newTransport : List Event → TLSInfo → Duration → Option String
  clientNew : List Event → Config → Option String
  membersList : List Event → Client → Duration → Except String (List Member)
  keysSet : List Event → SetCall → Option String
  clock : List Event → Int

/-! ## The plugin -/

/-- The configuration struct `Etcd2`. -/
structure Etcd2 where
  Urls : List String
  SSLCAFile : String
  SSLCertFile : String
  SSLKeyFile : String
  Cluster : String
deriving DecidableEq, Repr

/-- `Etcd2.connectTo(endpoints)`, run after history `h`: the client or the
error, and the external calls made. -/
def Etcd2.connectTo (e : Etcd2) (w : World) (endpoints : List String) (h : List Event) :
    Except String Client × List Event :=
  let certFile := e.SSLCertFile
  let caFile := e.SSLCAFile
  let keyFile := e.SSLKeyFile
  let tls : TLSInfo := ⟨caFile, certFile, keyFile⟩
  let tlsTimeout : Duration := 10 * Second
  match w.newTransport h tls tlsTimeout with
  | some trErr => (Except.error trErr, [Event.NewTransport tls tlsTimeout])
  | none =>
    let tr : Transport := ⟨tls, tlsTimeout⟩
    let cfg : Config := ⟨tr, endpoints, tlsTimeout⟩
    match w.clientNew (h ++ [Event.NewTransport tls tlsTimeout]) cfg with
    | some clientError =>
      (Except.error clientError, [Event.NewTransport tls tlsTimeout, Event.ClientNew cfg])
    | none => (Except.ok ⟨cfg⟩, [Event.NewTransport tls tlsTimeout, Event.ClientNew cfg])

/-- The local variables of one iteration of the loop of `Gather`, and the
external calls the iteration made. `conn` is the pair `cli, err` returned by
`connectTo`; `setErr` is the error returned by `keysAPI.Set`, or `none` when
`Set` was not called; `hSet` is the history when control reaches the
`if err != nil` after `connectTo` (the moment `Set` is issued, when it is), and
`hEnd` the history when `time.Since` is called. -/
structure Probe where
  thisEp : String
  start : Int
  conn : Except String Client
  hSet : List Event
  setErr : Option (Option String)
  isHealthy : Int
  hEnd : List Event
  elapsed : Duration
  record : GoMap FieldValue
  tags : GoMap String
  events : List Event

/-- The body of the loop of `Gather` for member `ep`, entered after history `h`
with the two maps in the state `record`, `tags`. -/
def Etcd2.probe (e : Etcd2) (w : World) (ep : Member) (record : GoMap FieldValue)
    (tags : GoMap String) (h : List Event) : Probe :=
  let thisEp := "https://" ++ ep.Name ++ ":2379"
  let start := w.clock h
  let conn := e.connectTo w [thisEp] (h ++ [Event.Now])
  let hc := h ++ [Event.Now] ++ conn.2
  let res : Int × Option (Option String) × List Event :=
    match conn.1 with
    | Except.error _ => (0, none, [])
    | Except.ok cli =>
      let call : SetCall := ⟨cli, 20 * Second, "/telegrafetcd", "telegrafetcd"⟩
      match w.keysSet hc call with
      | some err => (0, some (some err), [Event.KeysSet call])
      | none => (1, some none, [Event.KeysSet call])
  let isHealthy := res.1
  let elapsed := timeSub (w.clock (hc ++ res.2.2)) start
  let record := GoMap.assign record "response_time" (FieldValue.float (elapsed.Seconds * 1000))
  let record := GoMap.assign record "is_healthy" (FieldValue.int isHealthy)
  let tags := GoMap.assign tags "name" ep.Name
  let tags := GoMap.assign tags "hostname" ep.Name
  let tags := GoMap.assign tags "id" ep.ID
  let tags := GoMap.assign tags "cluster" e.Cluster
  { thisEp := thisEp
    start := start
    conn := conn.1
    hSet := hc
    setErr := res.2.1
    isHealthy := isHealthy
    hEnd := hc ++ res.2.2
    elapsed := elapsed
    record := record
    tags := tags
    events := [Event.Now] ++ conn.2 ++ res.2.2 ++
      [Event.Since start, Event.AddFields ⟨"etcd_health_checks", record, tags⟩] }

/-- The state carried from one iteration of the loop of `Gather` to the next:
the two maps, created once before the loop, and the external calls made by the
loop so far. -/
structure LoopState where
  record : GoMap FieldValue
  tags : GoMap String
  events : List Event

/-- One iteration of the loop of `Gather`; `h1` is the history before the loop. -/
def Etcd2.gatherStep (e : Etcd2) (w : World) (h1 : List Event) (st : LoopState)
    (ep : Member) : LoopState :=
  let p := e.probe w ep st.record st.tags (h1 ++ st.events)
  ⟨p.record, p.tags, st.events ++ p.events⟩

/-- The loop `for _, ep := range ms` of `Gather`, entered after history `h1`. -/
def Etcd2.gatherLoop (e : Etcd2) (w : World) (h1 : List Event) (ms : List Member)
    (st : LoopState) : LoopState :=
  ms.foldl (e.gatherStep w h1) st

/-- `Etcd2.Gather(acc)`, run after history `h`: the returned error (`none` for
`nil`) and the external calls made, the calls of `acc.AddFields` among them. -/
def Etcd2.Gather (e : Etcd2) (w : World) (h : List Event) : Option String × List Event :=
  let record : GoMap FieldValue := []
  let tags : GoMap String := []
  match e.connectTo w e.Urls h with
  | (Except.error clientErr, evs) => (some clientErr, evs)
  | (Except.ok cln, evs) =>
    let memberTimeout : Duration := 20 * Second
    let evs1 := evs ++ [Event.MembersList cln memberTimeout]
    match w.membersList (h ++ evs) cln memberTimeout with
    | Except.error err => (some err, evs1)
    | Except.ok ms =>
      (none, evs1 ++ (e.gatherLoop w (h ++ evs1) ms ⟨record, tags, []⟩).events)

/-- The iteration of the loop of `Gather` for the member at position `i` of the
member list `ms`: the loop body, run in the state the loop has reached after the
members before position `i`. `h1` is the history before the loop. -/
def Etcd2.iteration (e : Etcd2) (w : World) (h1 : List Event) (ms : List Member) (i : Nat) :
    Option Probe :=
  match ms[i]? with
  | none => none
  | some ep =>
    let st := e.gatherLoop w h1 (ms.take i) ⟨[], [], []⟩
    some (e.probe w ep st.record st.tags (h1 ++ st.events))

/-- The history when the loop of `Gather` is entered, in a cycle started after
history `h` whose member list was fetched through the seed client `cln`. -/
def Etcd2.loopStart (e : Etcd2) (w : World) (h : List Event) (cln : Client) : List Event :=
  h ++ ((e.connectTo w e.Urls h).2 ++ [Event.MembersList cln (20 * Second)])

/-! ## Reading a list of events -/

/-- The calls of `AddFields` among the events, in order. -/
def addFieldsCalls (evs : List Event) : List AddFieldsCall :=
  evs.filterMap fun ev => match ev with
    | Event.AddFields c => some c
    | _ => none

/-- The calls of `KeysAPI.Set` among the events, in order. -/
def setCalls (evs : List Event) : List SetCall :=
  evs.filterMap fun ev => match ev with
    | Event.KeysSet c => some c
    | _ => none

/-- The configurations passed to `client.New` among the events, in order. -/
def clientNewCalls (evs : List Event) : List Config :=
  evs.filterMap fun ev => match ev with
    | Event.ClientNew c => some c
    | _ => none

/-- The arguments of the calls of `transport.NewTransport`, in order. -/
def newTransportCalls (evs : List Event) : List (TLSInfo × Duration) :=
  evs.filterMap fun ev => match ev with
    | Event.NewTransport tls t => some (tls, t)
    | _ => none

/-- The arguments of the calls of `MembersAPI.List`, in order. -/
def membersListCalls (evs : List Event) : List (Client × Duration) :=
  evs.filterMap fun ev => match ev with
    | Event.MembersList c t => some (c, t)
    | _ => none

/-- The number of calls of `time.Now` among the events. -/
def nowCalls (evs : List Event) : Nat :=
  evs.countP fun ev => match ev with
    | Event.Now => true
    | _ => false

/-! ## A sample environment -/

/-- Time an external call takes in `sampleWorld`, in nanoseconds. -/
def sampleCost : Event → Int
  | Event.NewTransport _ _ => 3000000
  | Event.ClientNew _ => 1000000
  | Event.MembersList _ _ => 12000000
  | Event.KeysSet c => if c.cli.cfg.Endpoints = ["https://n1:2379"] then 4000000 else 20000000000
  | _ => 0

/-- The member list served in `sampleWorld`. -/
def sampleMembers : List Member := [⟨"a1", "n1"⟩, ⟨"a2", "n2"⟩, ⟨"a3", "n3"⟩]

/-- An environment with the three members `n1`, `n2` and `n3`: the write to `n1`
succeeds in 4 ms, the write to `n2` times out, and no client can be built for
the endpoint of `n3`. A transport for the certificate file `missing.pem` cannot
be built, and the member list cannot be fetched through the seed
`https://down:2379`. -/
def sampleWorld : World where
  newTransport := fun _ tls _ =>
    if tls.CertFile = "missing.pem" then some "open missing.pem" else none
  clientNew := fun _ cfg =>
    if cfg.Endpoints = ["https://n3:2379"] then some "endpoint rejected" else none
  membersList := fun _ cln _ =>
    if cln.cfg.Endpoints = ["https://down:2379"] then Except.error "cluster unavailable"
    else Except.ok sampleMembers
  keysSet := fun _ c =>
    if c.cli.cfg.Endpoints = ["https://n1:2379"] then none else some "context deadline exceeded"
  clock := fun h => (h.map sampleCost).sum

/-- Time an external call takes in `slowWorld`, in nanoseconds: 3 s to build a
transport, 19 s for a write. -/
def slowCost : Event → Int
  | Event.NewTransport _ _ => 3000000000
  | Event.KeysSet _ => 19000000000
  | _ => 0

/-- An environment with the single member `n1`, where every call succeeds,
building a transport takes 3 s and the write takes 19 s. -/
def slowWorld : World where
  newTransport := fun _ _ _ => none
  clientNew := fun _ _ => none
  membersList := fun _ _ _ => Except.ok [⟨"a1", "n1"⟩]
  keysSet := fun _ _ => none
  clock := fun h => (h.map slowCost).sum

/-- A configuration for `sampleWorld`. -/
def sampleCfg : Etcd2 := ⟨["https://10.0.0.1:2379"], "ca.pem", "etcd.pem", "etcd-key.pem", "prod"⟩

/-! ## Derived definitions used by the statements -/

/-- The TLS material `connectTo` passes to `transport.NewTransport`. -/
def Etcd2.tlsInfo (e : Etcd2) : TLSInfo := ⟨e.SSLCAFile, e.SSLCertFile, e.SSLKeyFile⟩

/-- The configuration `connectTo` passes to `client.New` for `endpoints`. -/
def Etcd2.clientConfig (e : Etcd2) (endpoints : List String) : Config :=
  ⟨⟨e.tlsInfo, 10 * Second⟩, endpoints, 10 * Second⟩

/-- The write issued by the health check through client `cli`. -/
def healthWrite (cli : Client) : SetCall := ⟨cli, 20 * Second, "/telegrafetcd", "telegrafetcd"⟩

/-- The fields map is as created, or has been filled by an earlier iteration. -/
def RecordOk (r : GoMap FieldValue) : Prop :=
  r = [] ∨ r.map Prod.fst = ["response_time", "is_healthy"]

/-- The tags map is as created, or has been filled by an earlier iteration. -/
def TagsOk (t : GoMap String) : Prop :=
  t = [] ∨ t.map Prod.fst = ["name", "hostname", "id", "cluster"]

/-- The call of `AddFields` made by an iteration. -/
def Probe.call (p : Probe) : AddFieldsCall := ⟨"etcd_health_checks", p.record, p.tags⟩

/-- The loop state when the loop is entered: both maps empty, no call made. -/
def LoopState.init : LoopState := ⟨[], [], []⟩

/-- The tags of a record for member `m` under configuration `e`. -/
def Etcd2.memberTags (e : Etcd2) (m : Member) : GoMap String :=
  [("name", m.Name), ("hostname", m.Name), ("id", m.ID), ("cluster", e.Cluster)]

/-- Whether the iteration got a client from `connectTo`. -/
def Probe.transportBuilt (p : Probe) : Bool :=
  match p.conn with
  | Except.ok _ => true
  | Except.error _ => false

/-- Whether iteration `i` of the loop got a client from `connectTo`. -/
def Etcd2.transportBuiltAt (e : Etcd2) (w : World) (h1 : List Event) (ms : List Member)
    (i : Nat) : Bool :=
  match e.iteration w h1 ms i with
  | some p => p.transportBuilt
  | none => false

/-- A configuration whose certificate file cannot be read in `sampleWorld`. -/
def badCertCfg : Etcd2 := ⟨["https://10.0.0.1:2379"], "ca.pem", "missing.pem", "etcd-key.pem", "prod"⟩

/-- A configuration whose seed cannot list the members in `sampleWorld`. -/
def downSeedCfg : Etcd2 := ⟨["https://down:2379"], "ca.pem", "etcd.pem", "etcd-key.pem", "prod"⟩

/-! ## Shape of the events of `connectTo` -/

theorem connectTo_eq (e : Etcd2) (w : World) (eps : List String) (h : List Event) :
    e.connectTo w eps h =
      match w.newTransport h e.tlsInfo (10 * Second) with
      | some trErr => (Except.error trErr, [Event.NewTransport e.tlsInfo (10 * Second)])
      | none =>
        match w.clientNew (h ++ [Event.NewTransport e.tlsInfo (10 * Second)])
            (e.clientConfig eps) with
        | some clientError =>
          (Except.error clientError,
            [Event.NewTransport e.tlsInfo (10 * Second), Event.ClientNew (e.clientConfig eps)])
        | none =>
          (Except.ok ⟨e.clientConfig eps⟩,
            [Event.NewTransport e.tlsInfo (10 * Second), Event.ClientNew (e.clientConfig eps)]) :=
  rfl

theorem connectTo_events (e : Etcd2) (w : World) (eps : List String) (h : List Event) :
    (e.connectTo w eps h).2 = [Event.NewTransport e.tlsInfo (10 * Second)] ∨
    (e.connectTo w eps h).2 =
      [Event.NewTransport e.tlsInfo (10 * Second), Event.ClientNew (e.clientConfig eps)] := by
  rw [connectTo_eq]
  cases w.newTransport h e.tlsInfo (10 * Second) with
  | some err => left; rfl
  | none =>
    right
    cases w.clientNew (h ++ [Event.NewTransport e.tlsInfo (10 * Second)])
      (e.clientConfig eps) <;> rfl

theorem connectTo_ok (e : Etcd2) (w : World) (eps : List String) (h : List Event)
    (cli : Client) (evs : List Event) (hc : e.connectTo w eps h = (Except.ok cli, evs)) :
    cli = ⟨e.clientConfig eps⟩ ∧
    evs = [Event.NewTransport e.tlsInfo (10 * Second), Event.ClientNew (e.clientConfig eps)] := by
  rw [connectTo_eq] at hc
  cases hn : w.newTransport h e.tlsInfo (10 * Second) with
  | some err => simp [hn] at hc
  | none =>
    simp only [hn] at hc
    cases hm : w.clientNew (h ++ [Event.NewTransport e.tlsInfo (10 * Second)])
      (e.clientConfig eps) with
    | some err => simp [hm] at hc
    | none =>
      simp only [hm, Prod.mk.injEq, Except.ok.injEq] at hc
      exact ⟨hc.1.symm, hc.2.symm⟩

theorem connectTo_addFields (e : Etcd2) (w : World) (eps : List String) (h : List Event) :
    addFieldsCalls (e.connectTo w eps h).2 = [] := by
  rcases connectTo_events e w eps h with hh | hh <;> rw [hh] <;> rfl

theorem connectTo_setCalls (e : Etcd2) (w : World) (eps : List String) (h : List Event) :
    setCalls (e.connectTo w eps h).2 = [] := by
  rcases connectTo_events e w eps h with hh | hh <;> rw [hh] <;> rfl

theorem connectTo_membersList (e : Etcd2) (w : World) (eps : List String) (h : List Event) :
    membersListCalls (e.connectTo w eps h).2 = [] := by
  rcases connectTo_events e w eps h with hh | hh <;> rw [hh] <;> rfl

theorem connectTo_now (e : Etcd2) (w : World) (eps : List String) (h : List Event) :
    nowCalls (e.connectTo w eps h).2 = 0 := by
  rcases connectTo_events e w eps h with hh | hh <;> rw [hh] <;> rfl

/-! ## Shape of one iteration -/

/-- The two ways through the loop body: the transport is not built and nothing
is written, or it is built and one write is issued. -/
theorem probe_cases (e : Etcd2) (w : World) (ep : Member) (r : GoMap FieldValue)
    (t : GoMap String) (h : List Event) (p : Probe) (hp : p = e.probe w ep r t h)
    (conn : Except String Client × List Event)
    (hconn : conn = e.connectTo w ["https://" ++ ep.Name ++ ":2379"] (h ++ [Event.Now])) :
    p.conn = conn.1 ∧ p.hSet = h ++ [Event.Now] ++ conn.2 ∧ p.start = w.clock h ∧
    p.elapsed = timeSub (w.clock p.hEnd) p.start ∧
    ∃ sev, p.hEnd = p.hSet ++ sev ∧
      p.events = [Event.Now] ++ conn.2 ++ sev ++
        [Event.Since p.start, Event.AddFields ⟨"etcd_health_checks", p.record, p.tags⟩] ∧
      ((∃ err, p.conn = Except.error err ∧ sev = [] ∧ p.setErr = none ∧ p.isHealthy = 0) ∨
       (∃ cli, p.conn = Except.ok cli ∧ sev = [Event.KeysSet (healthWrite cli)] ∧
          p.setErr = some (w.keysSet p.hSet (healthWrite cli)) ∧
          p.isHealthy = if w.keysSet p.hSet (healthWrite cli) = none then 1 else 0)) := by
  subst hp hconn
  refine ⟨rfl, rfl, rfl, rfl, ?_⟩
  cases hc : (e.connectTo w ["https://" ++ ep.Name ++ ":2379"] (h ++ [Event.Now])).1 with
  | error err =>
    refine ⟨[], ?_, ?_, Or.inl ⟨err, hc, rfl, ?_, ?_⟩⟩ <;> simp [Etcd2.probe, hc]
  | ok cli =>
    refine ⟨[Event.KeysSet (healthWrite cli)], ?_, ?_, Or.inr ⟨cli, hc, rfl, ?_, ?_⟩⟩
    · simp only [Etcd2.probe, hc, healthWrite]
      split <;> simp
    · simp only [Etcd2.probe, hc, healthWrite]
      split <;> simp
    · simp only [Etcd2.probe, hc, healthWrite]
      split <;> simp_all
    · simp only [Etcd2.probe, hc, healthWrite]
      split <;> simp_all

/-! ## The two maps -/

theorem assign_record (r : GoMap FieldValue) (hr : RecordOk r) (x y : FieldValue) :
    GoMap.assign (GoMap.assign r "response_time" x) "is_healthy" y =
      [("response_time", x), ("is_healthy", y)] := by
  rcases hr with hr | hr
  · subst hr
    simp [GoMap.assign]
  · rcases r with _ | ⟨⟨k1, v1⟩, _ | ⟨⟨k2, v2⟩, _ | ⟨b, l⟩⟩⟩ <;> simp at hr
    obtain ⟨h1, h2⟩ := hr
    subst h1 h2
    simp [GoMap.assign]

theorem assign_tags (t : GoMap String) (ht : TagsOk t) (a b c d : String) :
    GoMap.assign (GoMap.assign (GoMap.assign (GoMap.assign t "name" a) "hostname" b) "id" c)
      "cluster" d = [("name", a), ("hostname", b), ("id", c), ("cluster", d)] := by
  rcases ht with ht | ht
  · subst ht
    simp [GoMap.assign]
  · rcases t with _ | ⟨⟨k1, v1⟩, _ | ⟨⟨k2, v2⟩, _ | ⟨⟨k3, v3⟩, _ | ⟨⟨k4, v4⟩, _ | ⟨x, l⟩⟩⟩⟩⟩ <;>
      simp at ht
    obtain ⟨h1, h2, h3, h4⟩ := ht
    subst h1 h2 h3 h4
    simp [GoMap.assign]

theorem probe_record (e : Etcd2) (w : World) (ep : Member) (r : GoMap FieldValue)
    (t : GoMap String) (h : List Event) (hr : RecordOk r) :
    (e.probe w ep r t h).record =
      [("response_time", FieldValue.float ((e.probe w ep r t h).elapsed.Seconds * 1000)),
       ("is_healthy", FieldValue.int (e.probe w ep r t h).isHealthy)] :=
  assign_record r hr _ _

theorem probe_tags (e : Etcd2) (w : World) (ep : Member) (r : GoMap FieldValue)
    (t : GoMap String) (h : List Event) (ht : TagsOk t) :
    (e.probe w ep r t h).tags =
      [("name", ep.Name), ("hostname", ep.Name), ("id", ep.ID), ("cluster", e.Cluster)] :=
  assign_tags t ht _ _ _ _

theorem probe_addFields (e : Etcd2) (w : World) (ep : Member) (r : GoMap FieldValue)
    (t : GoMap String) (h : List Event) :
    addFieldsCalls (e.probe w ep r t h).events = [(e.probe w ep r t h).call] := by
  obtain ⟨-, -, -, -, sev, -, hev, hcase⟩ := probe_cases e w ep r t h _ rfl _ rfl
  rw [hev]
  simp only [addFieldsCalls, List.filterMap_append]
  have h1 := connectTo_addFields e w ["https://" ++ ep.Name ++ ":2379"] (h ++ [Event.Now])
  simp only [addFieldsCalls] at h1
  rw [h1]
  rcases hcase with ⟨err, -, hs, -, -⟩ | ⟨cli, -, hs, -, -⟩ <;> subst hs <;> simp [Probe.call]

theorem probe_setCalls (e : Etcd2) (w : World) (ep : Member) (r : GoMap FieldValue)
    (t : GoMap String) (h : List Event) :
    setCalls (e.probe w ep r t h).events =
      match (e.probe w ep r t h).conn with
      | Except.error _ => []
      | Except.ok cli => [healthWrite cli] := by
  obtain ⟨-, -, -, -, sev, -, hev, hcase⟩ := probe_cases e w ep r t h _ rfl _ rfl
  rw [hev]
  simp only [setCalls, List.filterMap_append]
  have h1 := connectTo_setCalls e w ["https://" ++ ep.Name ++ ":2379"] (h ++ [Event.Now])
  simp only [setCalls] at h1
  rw [h1]
  rcases hcase with ⟨err, hc, hs, -, -⟩ | ⟨cli, hc, hs, -, -⟩ <;> subst hs <;> rw [hc] <;> simp

theorem probe_nowCalls (e : Etcd2) (w : World) (ep : Member) (r : GoMap FieldValue)
    (t : GoMap String) (h : List Event) :
    nowCalls (e.probe w ep r t h).events = 1 := by
  obtain ⟨-, -, -, -, sev, -, hev, hcase⟩ := probe_cases e w ep r t h _ rfl _ rfl
  rw [hev]
  simp only [nowCalls, List.countP_append]
  have h1 := connectTo_now e w ["https://" ++ ep.Name ++ ":2379"] (h ++ [Event.Now])
  simp only [nowCalls] at h1
  rw [h1]
  rcases hcase with ⟨err, -, hs, -, -⟩ | ⟨cli, -, hs, -, -⟩ <;> subst hs <;> simp [List.countP_cons]

theorem probe_membersList (e : Etcd2) (w : World) (ep : Member) (r : GoMap FieldValue)
    (t : GoMap String) (h : List Event) :
    membersListCalls (e.probe w ep r t h).events = [] := by
  obtain ⟨-, -, -, -, sev, -, hev, hcase⟩ := probe_cases e w ep r t h _ rfl _ rfl
  rw [hev]
  simp only [membersListCalls, List.filterMap_append]
  have h1 := connectTo_membersList e w ["https://" ++ ep.Name ++ ":2379"] (h ++ [Event.Now])
  simp only [membersListCalls] at h1
  rw [h1]
  rcases hcase with ⟨err, -, hs, -, -⟩ | ⟨cli, -, hs, -, -⟩ <;> subst hs <;> simp

/-! ## The loop -/

theorem gatherLoop_snoc (e : Etcd2) (w : World) (h1 : List Event) (pre : List Member)
    (ep : Member) (st : LoopState) :
    e.gatherLoop w h1 (pre ++ [ep]) st = e.gatherStep w h1 (e.gatherLoop w h1 pre st) ep := by
  simp [Etcd2.gatherLoop, List.foldl_append]

theorem gatherStep_ok (e : Etcd2) (w : World) (h1 : List Event) (st : LoopState) (ep : Member)
    (hr : RecordOk st.record) (ht : TagsOk st.tags) :
    RecordOk (e.gatherStep w h1 st ep).record ∧ TagsOk (e.gatherStep w h1 st ep).tags := by
  constructor
  · right
    show List.map Prod.fst (e.probe w ep st.record st.tags (h1 ++ st.events)).record = _
    rw [probe_record e w ep _ _ _ hr]
    rfl
  · right
    show List.map Prod.fst (e.probe w ep st.record st.tags (h1 ++ st.events)).tags = _
    rw [probe_tags e w ep _ _ _ ht]
    rfl

theorem gatherLoop_ok (e : Etcd2) (w : World) (h1 : List Event) (ms : List Member) :
    RecordOk (e.gatherLoop w h1 ms LoopState.init).record ∧
    TagsOk (e.gatherLoop w h1 ms LoopState.init).tags := by
  induction ms using List.reverseRecOn with
  | nil => exact ⟨Or.inl rfl, Or.inl rfl⟩
  | append_singleton pre ep ih =>
    rw [gatherLoop_snoc]
    exact gatherStep_ok e w h1 _ ep ih.1 ih.2

theorem iteration_lt (e : Etcd2) (w : World) (h1 : List Event) (pre post : List Member)
    (i : Nat) (hi : i < pre.length) :
    e.iteration w h1 (pre ++ post) i = e.iteration w h1 pre i := by
  unfold Etcd2.iteration
  rw [List.getElem?_append_left hi, List.take_append_of_le_length (Nat.le_of_lt hi)]

theorem iteration_last (e : Etcd2) (w : World) (h1 : List Event) (pre : List Member)
    (ep : Member) :
    e.iteration w h1 (pre ++ [ep]) pre.length =
      some (e.probe w ep (e.gatherLoop w h1 pre LoopState.init).record
        (e.gatherLoop w h1 pre LoopState.init).tags
        (h1 ++ (e.gatherLoop w h1 pre LoopState.init).events)) := by
  unfold Etcd2.iteration
  simp [LoopState.init]

theorem iteration_ge (e : Etcd2) (w : World) (h1 : List Event) (ms : List Member)
    (i : Nat) (hi : ms.length ≤ i) : e.iteration w h1 ms i = none := by
  unfold Etcd2.iteration
  rw [List.getElem?_eq_none hi]

/-- An iteration exists for every position of the member list, and runs the
loop body for the member at that position. -/
theorem iteration_some (e : Etcd2) (w : World) (h1 : List Event) (ms : List Member)
    (i : Nat) (hi : i < ms.length) :
    e.iteration w h1 ms i =
      some (e.probe w (ms.get ⟨i, hi⟩) (e.gatherLoop w h1 (ms.take i) LoopState.init).record
        (e.gatherLoop w h1 (ms.take i) LoopState.init).tags
        (h1 ++ (e.gatherLoop w h1 (ms.take i) LoopState.init).events)) := by
  unfold Etcd2.iteration
  simp [LoopState.init, List.getElem?_eq_getElem hi]

theorem gatherLoop_events_snoc (e : Etcd2) (w : World) (h1 : List Event) (pre : List Member)
    (ep : Member) :
    ∃ p, e.iteration w h1 (pre ++ [ep]) pre.length = some p ∧
      (e.gatherLoop w h1 (pre ++ [ep]) LoopState.init).events =
        (e.gatherLoop w h1 pre LoopState.init).events ++ p.events :=
  ⟨_, iteration_last e w h1 pre ep, by rw [gatherLoop_snoc]; rfl⟩

/-- The `i`-th call of `AddFields` made by the loop is the one of iteration `i`. -/
theorem gatherLoop_call_at (e : Etcd2) (w : World) (h1 : List Event) (ms : List Member)
    (i : Nat) :
    (addFieldsCalls (e.gatherLoop w h1 ms LoopState.init).events)[i]? =
      (e.iteration w h1 ms i).map Probe.call := by
  induction ms using List.reverseRecOn generalizing i with
  | nil => simp [Etcd2.gatherLoop, LoopState.init, addFieldsCalls, Etcd2.iteration]
  | append_singleton pre ep ih =>
    have hlen : (addFieldsCalls (e.gatherLoop w h1 pre LoopState.init).events).length
        = pre.length := by
      apply Nat.le_antisymm
      · by_contra hlt
        have h3 := ih pre.length
        rw [iteration_ge e w h1 pre _ (Nat.le_refl _)] at h3
        simp at h3
        omega
      · by_contra hlt
        rcases Nat.eq_zero_or_pos pre.length with h0 | hpos
        · omega
        · have h3 := ih (pre.length - 1)
          rw [iteration_some e w h1 pre _ (by omega)] at h3
          have h4 : (addFieldsCalls (e.gatherLoop w h1 pre LoopState.init).events)[pre.length - 1]?
              = none := List.getElem?_eq_none (by omega)
          rw [h4] at h3
          simp at h3
    obtain ⟨p, hp, hev⟩ := gatherLoop_events_snoc e w h1 pre ep
    rw [hev]
    have hp2 : addFieldsCalls p.events = [p.call] := by
      rw [iteration_last] at hp
      cases hp
      exact probe_addFields _ _ _ _ _ _
    have happ : addFieldsCalls ((e.gatherLoop w h1 pre LoopState.init).events ++ p.events) =
        addFieldsCalls (e.gatherLoop w h1 pre LoopState.init).events ++ [p.call] := by
      rw [← hp2]
      simp [addFieldsCalls, List.filterMap_append]
    rw [happ]
    rcases Nat.lt_trichotomy i pre.length with hlt | heq | hgt
    · rw [List.getElem?_append_left (by omega), ih i, iteration_lt e w h1 pre [ep] i hlt]
    · subst heq
      rw [List.getElem?_append_right (by omega), hp, hlen]
      simp
    · rw [List.getElem?_eq_none (by simp; omega), iteration_ge e w h1 _ _ (by simp; omega)]
      rfl

theorem gatherLoop_calls_length (e : Etcd2) (w : World) (h1 : List Event) (ms : List Member) :
    (addFieldsCalls (e.gatherLoop w h1 ms LoopState.init).events).length = ms.length := by
  apply Nat.le_antisymm
  · by_contra hlt
    have h3 := gatherLoop_call_at e w h1 ms ms.length
    rw [iteration_ge e w h1 ms _ (Nat.le_refl _)] at h3
    simp at h3
    omega
  · by_contra hlt
    rcases Nat.eq_zero_or_pos ms.length with h0 | hpos
    · omega
    · have h3 := gatherLoop_call_at e w h1 ms (ms.length - 1)
      rw [iteration_some e w h1 ms _ (by omega)] at h3
      have h4 : (addFieldsCalls (e.gatherLoop w h1 ms LoopState.init).events)[ms.length - 1]?
          = none := List.getElem?_eq_none (by omega)
      rw [h4] at h3
      simp at h3

theorem gatherLoop_nowCalls (e : Etcd2) (w : World) (h1 : List Event) (ms : List Member) :
    nowCalls (e.gatherLoop w h1 ms LoopState.init).events = ms.length := by
  induction ms using List.reverseRecOn with
  | nil => rfl
  | append_singleton pre ep ih =>
    obtain ⟨p, hp, hev⟩ := gatherLoop_events_snoc e w h1 pre ep
    rw [iteration_last] at hp
    cases hp
    rw [hev]
    have h2 := probe_nowCalls e w ep (e.gatherLoop w h1 pre LoopState.init).record
      (e.gatherLoop w h1 pre LoopState.init).tags
      (h1 ++ (e.gatherLoop w h1 pre LoopState.init).events)
    simp only [nowCalls, List.countP_append, List.length_append, List.length_singleton] at *
    omega

theorem gatherLoop_membersList (e : Etcd2) (w : World) (h1 : List Event) (ms : List Member) :
    membersListCalls (e.gatherLoop w h1 ms LoopState.init).events = [] := by
  induction ms using List.reverseRecOn with
  | nil => rfl
  | append_singleton pre ep ih =>
    obtain ⟨p, hp, hev⟩ := gatherLoop_events_snoc e w h1 pre ep
    rw [iteration_last] at hp
    cases hp
    rw [hev]
    have h2 := probe_membersList e w ep (e.gatherLoop w h1 pre LoopState.init).record
      (e.gatherLoop w h1 pre LoopState.init).tags
      (h1 ++ (e.gatherLoop w h1 pre LoopState.init).events)
    simp only [membersListCalls, List.filterMap_append] at *
    rw [ih, h2]
    rfl

/-! ## Shape of a cycle -/

theorem gather_seed_error (e : Etcd2) (w : World) (h : List Event) (err : String)
    (hseed : (e.connectTo w e.Urls h).1 = Except.error err) :
    e.Gather w h = (some err, (e.connectTo w e.Urls h).2) := by
  unfold Etcd2.Gather
  generalize e.connectTo w e.Urls h = c at hseed
  obtain ⟨c1, c2⟩ := c
  simp only at hseed
  subst hseed
  rfl

theorem gather_list_error (e : Etcd2) (w : World) (h : List Event) (cln : Client) (err : String)
    (hseed : (e.connectTo w e.Urls h).1 = Except.ok cln)
    (hlist : w.membersList (h ++ (e.connectTo w e.Urls h).2) cln (20 * Second) =
      Except.error err) :
    e.Gather w h =
      (some err, (e.connectTo w e.Urls h).2 ++ [Event.MembersList cln (20 * Second)]) := by
  unfold Etcd2.Gather
  generalize e.connectTo w e.Urls h = c at hseed hlist
  obtain ⟨c1, c2⟩ := c
  simp only at hseed hlist
  subst hseed
  simp only [hlist]

theorem gather_ok (e : Etcd2) (w : World) (h : List Event) (cln : Client) (ms : List Member)
    (hseed : (e.connectTo w e.Urls h).1 = Except.ok cln)
    (hlist : w.membersList (h ++ (e.connectTo w e.Urls h).2) cln (20 * Second) =
      Except.ok ms) :
    e.Gather w h =
      (none, (e.connectTo w e.Urls h).2 ++ [Event.MembersList cln (20 * Second)] ++
        (e.gatherLoop w
          (h ++ ((e.connectTo w e.Urls h).2 ++ [Event.MembersList cln (20 * Second)]))
          ms LoopState.init).events) := by
  unfold Etcd2.Gather
  generalize e.connectTo w e.Urls h = c at hseed hlist
  obtain ⟨c1, c2⟩ := c
  simp only at hseed hlist
  subst hseed
  simp only [hlist]
  rfl

theorem gather_addFields (e : Etcd2) (w : World) (h : List Event) (cln : Client)
    (ms : List Member) (hseed : (e.connectTo w e.Urls h).1 = Except.ok cln)
    (hlist : w.membersList (h ++ (e.connectTo w e.Urls h).2) cln (20 * Second) =
      Except.ok ms) :
    addFieldsCalls (e.Gather w h).2 =
      addFieldsCalls (e.gatherLoop w (e.loopStart w h cln) ms LoopState.init).events := by
  rw [gather_ok e w h cln ms hseed hlist]
  have h1 := connectTo_addFields e w e.Urls h
  simp only [addFieldsCalls, List.filterMap_append] at h1 ⊢
  rw [h1]
  rfl

/-- In a cycle that fetched the member list `ms`, iteration `i` of the loop
exists for every position `i` of `ms`; it is the loop body run for member `i`,
its call of `AddFields` is the `i`-th of the cycle, and the two maps it passes
hold what this iteration stored. -/
theorem gather_iteration (e : Etcd2) (w : World) (h : List Event) (cln : Client)
    (ms : List Member) (hseed : (e.connectTo w e.Urls h).1 = Except.ok cln)
    (hlist : w.membersList (h ++ (e.connectTo w e.Urls h).2) cln (20 * Second) =
      Except.ok ms) (i : Nat) (hi : i < ms.length) :
    ∃ p r t hp, e.iteration w (e.loopStart w h cln) ms i = some p ∧
      p = e.probe w (ms.get ⟨i, hi⟩) r t hp ∧
      (addFieldsCalls (e.Gather w h).2)[i]? = some p.call ∧
      p.record = [("response_time", FieldValue.float (p.elapsed.Seconds * 1000)),
        ("is_healthy", FieldValue.int p.isHealthy)] ∧
      p.tags = [("name", (ms.get ⟨i, hi⟩).Name), ("hostname", (ms.get ⟨i, hi⟩).Name),
        ("id", (ms.get ⟨i, hi⟩).ID), ("cluster", e.Cluster)] := by
  have hok := gatherLoop_ok e w (e.loopStart w h cln) (ms.take i)
  refine ⟨_, _, _, _, iteration_some e w _ ms i hi, rfl, ?_, ?_, ?_⟩
  · rw [gather_addFields e w h cln ms hseed hlist, gatherLoop_call_at,
      iteration_some e w _ ms i hi]
    rfl
  · exact probe_record e w _ _ _ _ hok.1
  · exact probe_tags e w _ _ _ _ hok.2

theorem gather_tags (e : Etcd2) (w : World) (h : List Event) (cln : Client)
    (ms : List Member) (hseed : (e.connectTo w e.Urls h).1 = Except.ok cln)
    (hlist : w.membersList (h ++ (e.connectTo w e.Urls h).2) cln (20 * Second) =
      Except.ok ms) :
    (addFieldsCalls (e.Gather w h).2).map AddFieldsCall.tags = ms.map e.memberTags := by
  apply List.ext_getElem?
  intro i
  rw [List.getElem?_map, List.getElem?_map]
  by_cases hi : i < ms.length
  · obtain ⟨p, r, t, hp, -, -, hc, -, ht⟩ := gather_iteration e w h cln ms hseed hlist i hi
    rw [hc, List.getElem?_eq_getElem hi]
    simp only [Option.map_some', Probe.call, ht, Etcd2.memberTags, List.get_eq_getElem]
  · have hlen : (addFieldsCalls (e.Gather w h).2).length = ms.length := by
      rw [gather_addFields e w h cln ms hseed hlist, gatherLoop_calls_length]
    rw [List.getElem?_eq_none (by omega), List.getElem?_eq_none (by omega)]
    rfl

theorem gatherLoop_iteration_events (e : Etcd2) (w : World) (h1 : List Event)
    (ms : List Member) (i : Nat) (p : Probe) (hp : e.iteration w h1 ms i = some p) :
    ∃ a b, (e.gatherLoop w h1 ms LoopState.init).events = a ++ p.events ++ b := by
  induction ms using List.reverseRecOn with
  | nil => simp [Etcd2.iteration] at hp
  | append_singleton pre ep ih =>
    obtain ⟨q, hq, hev⟩ := gatherLoop_events_snoc e w h1 pre ep
    rcases Nat.lt_trichotomy i pre.length with hlt | heq | hgt
    · rw [iteration_lt e w h1 pre [ep] i hlt] at hp
      obtain ⟨a, b, hab⟩ := ih hp
      exact ⟨a, b ++ q.events, by rw [hev, hab]; simp⟩
    · subst heq
      rw [hq] at hp
      cases hp
      exact ⟨(e.gatherLoop w h1 pre LoopState.init).events, [], by rw [hev]; simp⟩
    · rw [iteration_ge e w h1 _ _ (by simp; omega)] at hp
      cases hp

/-- The external calls of every iteration are part of the calls of the cycle. -/
theorem gather_iteration_events (e : Etcd2) (w : World) (h : List Event) (cln : Client)
    (ms : List Member) (hseed : (e.connectTo w e.Urls h).1 = Except.ok cln)
    (hlist : w.membersList (h ++ (e.connectTo w e.Urls h).2) cln (20 * Second) =
      Except.ok ms) (i : Nat) (p : Probe)
    (hp : e.iteration w (e.loopStart w h cln) ms i = some p) :
    ∃ a b, (e.Gather w h).2 = a ++ p.events ++ b := by
  obtain ⟨a, b, hab⟩ := gatherLoop_iteration_events e w _ ms i p hp
  refine ⟨(e.connectTo w e.Urls h).2 ++ [Event.MembersList cln (20 * Second)] ++ a, b, ?_⟩
  rw [gather_ok e w h cln ms hseed hlist]
  show _ ++ (e.gatherLoop w (e.loopStart w h cln) ms LoopState.init).events = _
  rw [hab]
  simp

theorem gather_nowCalls (e : Etcd2) (w : World) (h : List Event) (cln : Client)
    (ms : List Member) (hseed : (e.connectTo w e.Urls h).1 = Except.ok cln)
    (hlist : w.membersList (h ++ (e.connectTo w e.Urls h).2) cln (20 * Second) =
      Except.ok ms) :
    nowCalls (e.Gather w h).2 = ms.length := by
  rw [gather_ok e w h cln ms hseed hlist]
  have h1 := connectTo_now e w e.Urls h
  have h2 := gatherLoop_nowCalls e w
    (h ++ ((e.connectTo w e.Urls h).2 ++ [Event.MembersList cln (20 * Second)])) ms
  simp only [nowCalls, List.countP_append] at h1 h2 ⊢
  rw [h1, h2]
  simp [List.countP_cons]

theorem lookup_is_healthy (x v : FieldValue) :
    List.lookup "is_healthy" [("response_time", x), ("is_healthy", v)] = some v := by
  simp [List.lookup]

theorem lookup_response_time (x v : FieldValue) :
    List.lookup "response_time" [("response_time", x), ("is_healthy", v)] = some x := by
  simp [List.lookup]

theorem probe_setCalls_length (e : Etcd2) (w : World) (ep : Member) (r : GoMap FieldValue)
    (t : GoMap String) (h : List Event) :
    (setCalls (e.probe w ep r t h).events).length =
      if (e.probe w ep r t h).transportBuilt then 1 else 0 := by
  rw [probe_setCalls]
  unfold Probe.transportBuilt
  cases (e.probe w ep r t h).conn <;> rfl

theorem gatherLoop_setCalls_length (e : Etcd2) (w : World) (h1 : List Event)
    (ms : List Member) :
    (setCalls (e.gatherLoop w h1 ms LoopState.init).events).length =
      (List.range ms.length).countP (e.transportBuiltAt w h1 ms) := by
  induction ms using List.reverseRecOn with
  | nil => rfl
  | append_singleton pre ep ih =>
    obtain ⟨p, hp, hev⟩ := gatherLoop_events_snoc e w h1 pre ep
    have hcount : (List.range pre.length).countP (e.transportBuiltAt w h1 (pre ++ [ep])) =
        (List.range pre.length).countP (e.transportBuiltAt w h1 pre) := by
      apply List.countP_congr
      intro i hi
      rw [List.mem_range] at hi
      unfold Etcd2.transportBuiltAt
      rw [iteration_lt e w h1 pre [ep] i hi]
    have hlast : e.transportBuiltAt w h1 (pre ++ [ep]) pre.length = p.transportBuilt := by
      unfold Etcd2.transportBuiltAt
      rw [hp]
    have hsc : (setCalls p.events).length = if p.transportBuilt then 1 else 0 := by
      rw [iteration_last] at hp
      cases hp
      exact probe_setCalls_length _ _ _ _ _ _
    rw [hev, List.length_append, List.length_singleton, List.range_succ, List.countP_append,
      hcount, ← ih]
    have happ : setCalls ((e.gatherLoop w h1 pre LoopState.init).events ++ p.events) =
        setCalls (e.gatherLoop w h1 pre LoopState.init).events ++ setCalls p.events := by
      simp [setCalls, List.filterMap_append]
    rw [happ, List.length_append, hsc, List.countP_singleton, hlast]

theorem gatherLoop_setCalls_args (e : Etcd2) (w : World) (h1 : List Event)
    (ms : List Member) :
    ∀ c ∈ setCalls (e.gatherLoop w h1 ms LoopState.init).events,
      c.timeout = 20 * Second ∧ c.key = "/telegrafetcd" ∧ c.value = "telegrafetcd" := by
  induction ms using List.reverseRecOn with
  | nil =>
    intro c hc
    simp [Etcd2.gatherLoop, LoopState.init, setCalls] at hc
  | append_singleton pre ep ih =>
    obtain ⟨p, hp, hev⟩ := gatherLoop_events_snoc e w h1 pre ep
    rw [iteration_last] at hp
    cases hp
    intro c hc
    rw [hev] at hc
    have happ : ∀ a b : List Event, setCalls (a ++ b) = setCalls a ++ setCalls b := by
      intro a b
      simp [setCalls, List.filterMap_append]
    rw [happ, List.mem_append] at hc
    rcases hc with hc | hc
    · exact ih c hc
    · rw [probe_setCalls] at hc
      split at hc
      · simp at hc
      · simp only [List.mem_singleton] at hc
        subst hc
        exact ⟨rfl, rfl, rfl⟩

theorem gather_setCalls (e : Etcd2) (w : World) (h : List Event) (cln : Client)
    (ms : List Member) (hseed : (e.connectTo w e.Urls h).1 = Except.ok cln)
    (hlist : w.membersList (h ++ (e.connectTo w e.Urls h).2) cln (20 * Second) =
      Except.ok ms) :
    setCalls (e.Gather w h).2 =
      setCalls (e.gatherLoop w (e.loopStart w h cln) ms LoopState.init).events := by
  rw [gather_ok e w h cln ms hseed hlist]
  have h1 := connectTo_setCalls e w e.Urls h
  simp only [setCalls, List.filterMap_append] at h1 ⊢
  rw [h1]
  rfl

theorem connectTo_newTransport (e : Etcd2) (w : World) (eps : List String) (h : List Event) :
    newTransportCalls (e.connectTo w eps h).2 = [(e.tlsInfo, 10 * Second)] := by
  rcases connectTo_events e w eps h with hh | hh <;> rw [hh] <;> rfl

theorem connectTo_clientNew (e : Etcd2) (w : World) (eps : List String) (h : List Event) :
    clientNewCalls (e.connectTo w eps h).2 = [] ∨
    clientNewCalls (e.connectTo w eps h).2 = [e.clientConfig eps] := by
  rcases connectTo_events e w eps h with hh | hh <;> rw [hh]
  · left; rfl
  · right; rfl

theorem probe_connection_calls (e : Etcd2) (w : World) (ep : Member) (r : GoMap FieldValue)
    (t : GoMap String) (h : List Event) :
    newTransportCalls (e.probe w ep r t h).events =
      newTransportCalls (e.connectTo w ["https://" ++ ep.Name ++ ":2379"] (h ++ [Event.Now])).2 ∧
    clientNewCalls (e.probe w ep r t h).events =
      clientNewCalls (e.connectTo w ["https://" ++ ep.Name ++ ":2379"] (h ++ [Event.Now])).2 := by
  obtain ⟨-, -, -, -, sev, -, hev, hcase⟩ := probe_cases e w ep r t h _ rfl _ rfl
  rw [hev]
  rcases hcase with ⟨err, -, hs, -, -⟩ | ⟨cli, -, hs, -, -⟩ <;> subst hs <;>
    simp [newTransportCalls, clientNewCalls, List.filterMap_append, List.filterMap_cons]

/-! ## The clock -/

theorem clock_mono_append (w : World) (hmono : ∀ h ev, w.clock h ≤ w.clock (h ++ [ev]))
    (h evs : List Event) : w.clock h ≤ w.clock (h ++ evs) := by
  induction evs generalizing h with
  | nil => simp
  | cons ev rest ih =>
    have h1 := hmono h ev
    have h2 := ih (h ++ [ev])
    rw [List.append_assoc, List.singleton_append] at h2
    exact le_trans h1 h2

/-! ## `float64` arithmetic keeps the sign -/

theorem round_mant_nonneg (n : Int) (d : Nat) (hn : 0 ≤ n) : 0 ≤ (F64.round n d).mant := by
  unfold F64.round
  simp only []
  split_ifs with h1 h2
  · exact le_refl _
  · omega
  · exact Int.natCast_nonneg _

theorem num_nonneg (x : F64) (hx : 0 ≤ x.mant) : 0 ≤ x.num := by
  unfold F64.num
  split_ifs
  · exact mul_nonneg hx (pow_nonneg (by decide) _)
  · exact hx

theorem ofInt_mant_nonneg (i : Int) (hi : 0 ≤ i) : 0 ≤ (F64.ofInt i).mant :=
  round_mant_nonneg i 1 hi

theorem ofNat_mant_nonneg (n : Nat) : 0 ≤ (OfNat.ofNat n : F64).mant :=
  round_mant_nonneg n 1 (Int.natCast_nonneg n)

theorem add_mant_nonneg (x y : F64) (hx : 0 ≤ x.mant) (hy : 0 ≤ y.mant) :
    0 ≤ (x + y).mant := by
  show 0 ≤ (F64.round _ _).mant
  apply round_mant_nonneg
  exact add_nonneg (mul_nonneg (num_nonneg x hx) (Int.natCast_nonneg _))
    (mul_nonneg (num_nonneg y hy) (Int.natCast_nonneg _))

theorem mul_mant_nonneg (x y : F64) (hx : 0 ≤ x.mant) (hy : 0 ≤ y.mant) :
    0 ≤ (x * y).mant := by
  show 0 ≤ (F64.round _ _).mant
  apply round_mant_nonneg
  exact mul_nonneg (num_nonneg x hx) (num_nonneg y hy)

theorem div_mant_nonneg (x y : F64) (hx : 0 ≤ x.mant) (hy : 0 ≤ y.mant) :
    0 ≤ (x / y).mant := by
  show 0 ≤ (F64.div x y).mant
  unfold F64.div
  split_ifs with h1 h2
  · exact le_refl _
  · have := num_nonneg y hy
    omega
  · apply round_mant_nonneg
    exact mul_nonneg (num_nonneg x hx) (Int.natCast_nonneg _)

theorem toRat_nonneg (x : F64) (hx : 0 ≤ x.mant) : 0 ≤ x.toRat := by
  unfold F64.toRat
  have h1 : (0 : ℚ) ≤ (x.mant : ℚ) := by exact_mod_cast hx
  have h2 : (0 : ℚ) ≤ (2 : ℚ) ^ x.exp := zpow_nonneg (by norm_num) _
  exact mul_nonneg h1 h2

/-- The `response_time` computed from a duration that is not negative is not
negative. -/
theorem seconds_mul_1000_nonneg (d : Duration) (hd : 0 ≤ d) :
    0 ≤ (d.Seconds * 1000).toRat := by
  apply toRat_nonneg
  apply mul_mant_nonneg _ _ _ (ofNat_mant_nonneg 1000)
  unfold Duration.Seconds
  apply add_mant_nonneg
  · exact ofInt_mant_nonneg _ (Int.tdiv_nonneg hd (by decide))
  · exact div_mant_nonneg _ _ (ofInt_mant_nonneg _ (Int.tmod_nonneg _ hd))
      (ofNat_mant_nonneg 1000000000)

set_option maxRecDepth 10000 in
/-- The model rounds as the program does: for 8434764 ns the program stores
8.434764000000001, the binary64 value `4748350000919760 * 2 ^ (-49)`, not the
exact 8.434764; for 22 s it stores exactly 22000. -/
theorem seconds_mul_1000_rounds :
    Duration.Seconds 8434764 * 1000 = ⟨4748350000919760, -49⟩ ∧
    (⟨4748350000919760, -49⟩ : F64).toRat ≠ 8434764 / 1000000 ∧
    Duration.Seconds 22000000000 * 1000 = ⟨6047313952768000, -38⟩ ∧
    (⟨6047313952768000, -38⟩ : F64).toRat = 22000 := by
  refine ⟨by decide, ?_, by decide, ?_⟩
  · unfold F64.toRat
    norm_num
  · unfold F64.toRat
    norm_num

theorem timeSub_of_le (t u : Int) (h : u ≤ t) : 0 ≤ timeSub t u ∧ timeSub t u ≤ t - u := by
  unfold timeSub
  have hmax : maxDuration = (9223372036854775807 : Int) := rfl
  have hmin : minDuration = (-9223372036854775808 : Int) := rfl
  rw [hmax, hmin]
  split_ifs with h1 h2
  · have h3 : (9223372036854775807 : Int) < t - u := h1
    exact ⟨by decide, Int.le_of_lt h3⟩
  · omega
  · have h3 : (0 : Int) ≤ t - u := by omega
    exact ⟨h3, le_refl _⟩

/-! ## Claims -/

/-- C1: in a cycle where the seed connection is built and the member list call
returns `ms`, `Gather` calls `AddFields` exactly `ms.length` times, and the
`i`-th call carries the name and the ID of the `i`-th member of `ms`, for every
environment (so for every outcome of the transport constructions and writes). -/
theorem gather_one_record_per_member (e : Etcd2) (w : World) (h : List Event) (cln : Client)
    (ms : List Member) (hseed : (e.connectTo w e.Urls h).1 = Except.ok cln)
    (hlist : w.membersList (h ++ (e.connectTo w e.Urls h).2) cln (20 * Second) =
      Except.ok ms) :
    (addFieldsCalls (e.Gather w h).2).length = ms.length ∧
    (addFieldsCalls (e.Gather w h).2).map
        (fun c => (c.tags.lookup "name", c.tags.lookup "id")) =
      ms.map (fun m => (some m.Name, some m.ID)) := by
  have ht := gather_tags e w h cln ms hseed hlist
  constructor
  · have := congrArg List.length ht
    simpa using this
  · have h2 := congrArg (List.map (fun t : GoMap String => (t.lookup "name", t.lookup "id"))) ht
    simp only [List.map_map] at h2
    rw [show (fun c : AddFieldsCall => (c.tags.lookup "name", c.tags.lookup "id")) =
      (fun t : GoMap String => (t.lookup "name", t.lookup "id")) ∘ AddFieldsCall.tags from rfl, h2]
    apply List.map_congr_left
    intro m _
    simp [Etcd2.memberTags, List.lookup]

theorem gather_one_record_per_member_witness :
    (sampleCfg.connectTo sampleWorld sampleCfg.Urls []).1 =
      Except.ok ⟨sampleCfg.clientConfig sampleCfg.Urls⟩ ∧
    (addFieldsCalls (sampleCfg.Gather sampleWorld []).2).length = 3 ∧
    (addFieldsCalls (sampleCfg.Gather sampleWorld []).2).map
        (fun c => (c.tags.lookup "name", c.tags.lookup "id")) =
      [(some "n1", some "a1"), (some "n2", some "a2"), (some "n3", some "a3")] :=
  ⟨rfl, gather_one_record_per_member sampleCfg sampleWorld []
    ⟨sampleCfg.clientConfig sampleCfg.Urls⟩ sampleMembers rfl rfl⟩

/-- C2: when building the seed connection fails, or the member list call fails,
`Gather` never calls `AddFields` and returns that error to its caller. -/
theorem gather_discovery_failure (e : Etcd2) (w : World) (h : List Event)
    (hfail : (∃ err, (e.connectTo w e.Urls h).1 = Except.error err) ∨
      (∃ cln err, (e.connectTo w e.Urls h).1 = Except.ok cln ∧
        w.membersList (h ++ (e.connectTo w e.Urls h).2) cln (20 * Second) =
          Except.error err)) :
    addFieldsCalls (e.Gather w h).2 = [] ∧
    ∃ err, (e.Gather w h).1 = some err ∧
      ((e.connectTo w e.Urls h).1 = Except.error err ∨
        ∃ cln, (e.connectTo w e.Urls h).1 = Except.ok cln ∧
          w.membersList (h ++ (e.connectTo w e.Urls h).2) cln (20 * Second) =
            Except.error err) := by
  rcases hfail with ⟨err, hseed⟩ | ⟨cln, err, hseed, hlist⟩
  · rw [gather_seed_error e w h err hseed]
    exact ⟨connectTo_addFields e w e.Urls h, err, rfl, Or.inl hseed⟩
  · rw [gather_list_error e w h cln err hseed hlist]
    refine ⟨?_, err, rfl, Or.inr ⟨cln, hseed, hlist⟩⟩
    have h1 := connectTo_addFields e w e.Urls h
    simp only [addFieldsCalls, List.filterMap_append] at h1 ⊢
    rw [h1]
    rfl

theorem gather_discovery_failure_witness :
    (addFieldsCalls (badCertCfg.Gather sampleWorld []).2 = [] ∧
      ∃ err, (badCertCfg.Gather sampleWorld []).1 = some err ∧
        ((badCertCfg.connectTo sampleWorld badCertCfg.Urls []).1 = Except.error err ∨
          ∃ cln, (badCertCfg.connectTo sampleWorld badCertCfg.Urls []).1 = Except.ok cln ∧
            sampleWorld.membersList ([] ++ (badCertCfg.connectTo sampleWorld badCertCfg.Urls []).2)
              cln (20 * Second) = Except.error err)) ∧
    (addFieldsCalls (downSeedCfg.Gather sampleWorld []).2 = [] ∧
      ∃ err, (downSeedCfg.Gather sampleWorld []).1 = some err ∧
        ((downSeedCfg.connectTo sampleWorld downSeedCfg.Urls []).1 = Except.error err ∨
          ∃ cln, (downSeedCfg.connectTo sampleWorld downSeedCfg.Urls []).1 = Except.ok cln ∧
            sampleWorld.membersList ([] ++ (downSeedCfg.connectTo sampleWorld downSeedCfg.Urls []).2)
              cln (20 * Second) = Except.error err)) :=
  ⟨gather_discovery_failure badCertCfg sampleWorld [] (Or.inl ⟨"open missing.pem", rfl⟩),
   gather_discovery_failure downSeedCfg sampleWorld []
     (Or.inr ⟨⟨downSeedCfg.clientConfig downSeedCfg.Urls⟩, "cluster unavailable", rfl, rfl⟩)⟩

/-- C3: the `is_healthy` field of the record of the member at position `i` is 1
exactly when `connectTo` returned a client for that member and the write through
it returned no error; it is 0 exactly when `connectTo` returned an error or the
write returned an error; no other value occurs. -/
theorem is_healthy_iff_write_succeeds (e : Etcd2) (w : World) (h : List Event) (cln : Client)
    (ms : List Member) (hseed : (e.connectTo w e.Urls h).1 = Except.ok cln)
    (hlist : w.membersList (h ++ (e.connectTo w e.Urls h).2) cln (20 * Second) =
      Except.ok ms) (i : Nat) (hi : i < ms.length) :
    ∃ p c r t hp, e.iteration w (e.loopStart w h cln) ms i = some p ∧
      p = e.probe w (ms.get ⟨i, hi⟩) r t hp ∧
      (addFieldsCalls (e.Gather w h).2)[i]? = some c ∧
      (c.fields.lookup "is_healthy" = some (FieldValue.int 1) ∨
        c.fields.lookup "is_healthy" = some (FieldValue.int 0)) ∧
      (c.fields.lookup "is_healthy" = some (FieldValue.int 1) ↔
        ∃ cli, p.conn = Except.ok cli ∧ w.keysSet p.hSet (healthWrite cli) = none) ∧
      (c.fields.lookup "is_healthy" = some (FieldValue.int 0) ↔
        (∃ err, p.conn = Except.error err) ∨
        (∃ cli err, p.conn = Except.ok cli ∧ w.keysSet p.hSet (healthWrite cli) = some err)) := by
  obtain ⟨p, r, t, hp, hit, hpe, hc, hrec, -⟩ := gather_iteration e w h cln ms hseed hlist i hi
  refine ⟨p, p.call, r, t, hp, hit, hpe, hc, ?_⟩
  have hl : p.call.fields.lookup "is_healthy" = some (FieldValue.int p.isHealthy) := by
    show List.lookup "is_healthy" p.record = _
    rw [hrec]
    exact lookup_is_healthy _ _
  rw [hl]
  obtain ⟨-, -, -, -, sev, -, -, hcase⟩ := probe_cases e w (ms.get ⟨i, hi⟩) r t hp p hpe _ rfl
  rcases hcase with ⟨err, hconn, -, -, hh⟩ | ⟨cli, hconn, -, -, hh⟩
  · rw [hh, hconn]
    simp
  · rw [hh, hconn]
    cases hk : w.keysSet p.hSet (healthWrite cli) with
    | none => simp [hk]
    | some err => simp [hk]

theorem is_healthy_iff_write_succeeds_witness :
    ∃ p c r t hp, sampleCfg.iteration sampleWorld
        (sampleCfg.loopStart sampleWorld [] ⟨sampleCfg.clientConfig sampleCfg.Urls⟩)
        sampleMembers 1 = some p ∧
      p = sampleCfg.probe sampleWorld ⟨"a2", "n2"⟩ r t hp ∧
      (addFieldsCalls (sampleCfg.Gather sampleWorld []).2)[1]? = some c ∧
      (c.fields.lookup "is_healthy" = some (FieldValue.int 1) ∨
        c.fields.lookup "is_healthy" = some (FieldValue.int 0)) ∧
      (c.fields.lookup "is_healthy" = some (FieldValue.int 1) ↔
        ∃ cli, p.conn = Except.ok cli ∧ sampleWorld.keysSet p.hSet (healthWrite cli) = none) ∧
      (c.fields.lookup "is_healthy" = some (FieldValue.int 0) ↔
        (∃ err, p.conn = Except.error err) ∨
        (∃ cli err, p.conn = Except.ok cli ∧
          sampleWorld.keysSet p.hSet (healthWrite cli) = some err)) :=
  is_healthy_iff_write_succeeds sampleCfg sampleWorld []
    ⟨sampleCfg.clientConfig sampleCfg.Urls⟩ sampleMembers rfl rfl 1 (by decide)

/-- C4: in a cycle that fetched the member list `ms`, the records are one per
position of `ms`, and the record at position `i` has the measurement name
`etcd_health_checks`, exactly the two fields `response_time` and `is_healthy`,
holding the time and the flag computed by iteration `i`, and exactly the four
tags `name`, `hostname`, `id`, `cluster`, holding the name, the name and the ID
of member `i` and the configured cluster label. -/
theorem record_shape (e : Etcd2) (w : World) (h : List Event) (cln : Client)
    (ms : List Member) (hseed : (e.connectTo w e.Urls h).1 = Except.ok cln)
    (hlist : w.membersList (h ++ (e.connectTo w e.Urls h).2) cln (20 * Second) =
      Except.ok ms) :
    (addFieldsCalls (e.Gather w h).2).length = ms.length ∧
    ∀ (i : Nat) (hi : i < ms.length), ∃ p c,
      e.iteration w (e.loopStart w h cln) ms i = some p ∧
      (addFieldsCalls (e.Gather w h).2)[i]? = some c ∧
      c.measurement = "etcd_health_checks" ∧
      c.fields = [("response_time", FieldValue.float (p.elapsed.Seconds * 1000)),
        ("is_healthy", FieldValue.int p.isHealthy)] ∧
      c.tags = [("name", (ms.get ⟨i, hi⟩).Name), ("hostname", (ms.get ⟨i, hi⟩).Name),
        ("id", (ms.get ⟨i, hi⟩).ID), ("cluster", e.Cluster)] := by
  constructor
  · rw [gather_addFields e w h cln ms hseed hlist, gatherLoop_calls_length]
  · intro i hi
    obtain ⟨p, r, t, hp, hit, -, hc, hrec, htag⟩ :=
      gather_iteration e w h cln ms hseed hlist i hi
    exact ⟨p, p.call, hit, hc, rfl, hrec, htag⟩

theorem record_shape_witness :
    (addFieldsCalls (sampleCfg.Gather sampleWorld []).2).length = 3 ∧
    ∀ (i : Nat) (hi : i < 3), ∃ p c,
      sampleCfg.iteration sampleWorld
        (sampleCfg.loopStart sampleWorld [] ⟨sampleCfg.clientConfig sampleCfg.Urls⟩)
        sampleMembers i = some p ∧
      (addFieldsCalls (sampleCfg.Gather sampleWorld []).2)[i]? = some c ∧
      c.measurement = "etcd_health_checks" ∧
      c.fields = [("response_time", FieldValue.float (p.elapsed.Seconds * 1000)),
        ("is_healthy", FieldValue.int p.isHealthy)] ∧
      c.tags = [("name", (sampleMembers.get ⟨i, hi⟩).Name),
        ("hostname", (sampleMembers.get ⟨i, hi⟩).Name),
        ("id", (sampleMembers.get ⟨i, hi⟩).ID), ("cluster", "prod")] :=
  record_shape sampleCfg sampleWorld [] ⟨sampleCfg.clientConfig sampleCfg.Urls⟩
    sampleMembers rfl rfl

/-- C5: in a cycle where the seed connection is built and the member list call
returns `ms`, `Gather` returns `nil`, for every environment; the loop body is
entered for every member (one `time.Now` per member) and every member gets its
record, so no failure of a transport construction or of a write ends the loop. -/
theorem gather_returns_nil (e : Etcd2) (w : World) (h : List Event) (cln : Client)
    (ms : List Member) (hseed : (e.connectTo w e.Urls h).1 = Except.ok cln)
    (hlist : w.membersList (h ++ (e.connectTo w e.Urls h).2) cln (20 * Second) =
      Except.ok ms) :
    (e.Gather w h).1 = none ∧ nowCalls (e.Gather w h).2 = ms.length ∧
    (addFieldsCalls (e.Gather w h).2).length = ms.length := by
  refine ⟨?_, gather_nowCalls e w h cln ms hseed hlist, ?_⟩
  · rw [gather_ok e w h cln ms hseed hlist]
  · rw [gather_addFields e w h cln ms hseed hlist, gatherLoop_calls_length]

theorem gather_returns_nil_witness :
    (sampleCfg.Gather sampleWorld []).1 = none ∧
    nowCalls (sampleCfg.Gather sampleWorld []).2 = 3 ∧
    (addFieldsCalls (sampleCfg.Gather sampleWorld []).2).length = 3 :=
  gather_returns_nil sampleCfg sampleWorld [] ⟨sampleCfg.clientConfig sampleCfg.Urls⟩
    sampleMembers rfl rfl

/-- C6: the comment in `Gather` says 0 is healthy and 1 is unhealthy; the code
does the opposite. In `sampleWorld` the write to `n1` succeeds and the write to
`n2` fails, and no client is built for `n3`; the records carry `is_healthy = 1`
for `n1` and `is_healthy = 0` for `n2` and `n3`. -/
theorem is_healthy_opposite_of_comment :
    (addFieldsCalls (sampleCfg.Gather sampleWorld []).2).map
        (fun c => (c.tags.lookup "name", c.fields.lookup "is_healthy")) =
      [(some "n1", some (FieldValue.int 1)), (some "n2", some (FieldValue.int 0)),
        (some "n3", some (FieldValue.int 0))] := by
  decide

/-- C7: in a cycle that fetched the member list `ms`, the iteration for the
member at position `i` issues no write when `connectTo` returned an error, and
otherwise exactly one write, through the client `connectTo` returned, of the
value `telegrafetcd` to the key `/telegrafetcd` with a timeout of 20 seconds,
whatever the write returns. Every write of the cycle has these arguments, and
the number of writes of the cycle is the number of positions whose iteration
got a client. -/
theorem one_write_per_built_transport (e : Etcd2) (w : World) (h : List Event) (cln : Client)
    (ms : List Member) (hseed : (e.connectTo w e.Urls h).1 = Except.ok cln)
    (hlist : w.membersList (h ++ (e.connectTo w e.Urls h).2) cln (20 * Second) =
      Except.ok ms) :
    (∀ (i : Nat) (hi : i < ms.length), ∃ p r t hp,
      e.iteration w (e.loopStart w h cln) ms i = some p ∧
      p = e.probe w (ms.get ⟨i, hi⟩) r t hp ∧
      (∃ a b, (e.Gather w h).2 = a ++ p.events ++ b) ∧
      setCalls p.events =
        match p.conn with
        | Except.error _ => []
        | Except.ok cli => [⟨cli, 20 * Second, "/telegrafetcd", "telegrafetcd"⟩]) ∧
    (∀ c ∈ setCalls (e.Gather w h).2,
      c.timeout = 20 * Second ∧ c.key = "/telegrafetcd" ∧ c.value = "telegrafetcd") ∧
    (setCalls (e.Gather w h).2).length =
      (List.range ms.length).countP (e.transportBuiltAt w (e.loopStart w h cln) ms) := by
  refine ⟨?_, ?_, ?_⟩
  · intro i hi
    obtain ⟨p, r, t, hp, hit, hpe, -, -, -⟩ := gather_iteration e w h cln ms hseed hlist i hi
    refine ⟨p, r, t, hp, hit, hpe, gather_iteration_events e w h cln ms hseed hlist i p hit, ?_⟩
    subst hpe
    exact probe_setCalls e w _ r t hp
  · rw [gather_setCalls e w h cln ms hseed hlist]
    exact gatherLoop_setCalls_args e w _ ms
  · rw [gather_setCalls e w h cln ms hseed hlist]
    exact gatherLoop_setCalls_length e w _ ms

theorem one_write_per_built_transport_witness :
    (sampleCfg.connectTo sampleWorld sampleCfg.Urls []).1 =
      Except.ok ⟨sampleCfg.clientConfig sampleCfg.Urls⟩ ∧
    sampleMembers.length = 3 ∧
    (setCalls (sampleCfg.Gather sampleWorld []).2).length = 2 :=
  ⟨rfl, rfl, (one_write_per_built_transport sampleCfg sampleWorld []
    ⟨sampleCfg.clientConfig sampleCfg.Urls⟩ sampleMembers rfl rfl).2.2.trans (by decide)⟩

/-- C8: in a cycle that fetched the member list `ms`, the iteration for the
member at position `i`, of name `n`, calls `connectTo` for the one-element list
`["https://" ++ n ++ ":2379"]`. That call passes to `transport.NewTransport` the
configured CA, certificate and key files and a timeout of 10 seconds, as the
seed connection does, and the client it returns, like the seed client, has that
transport and a header timeout of 10 seconds; the two differ by their endpoints
only. -/
theorem member_connection (e : Etcd2) (w : World) (h : List Event) (cln : Client)
    (ms : List Member) (hseed : (e.connectTo w e.Urls h).1 = Except.ok cln)
    (hlist : w.membersList (h ++ (e.connectTo w e.Urls h).2) cln (20 * Second) =
      Except.ok ms) (i : Nat) (hi : i < ms.length) :
    ∃ p r t hp, e.iteration w (e.loopStart w h cln) ms i = some p ∧
      p = e.probe w (ms.get ⟨i, hi⟩) r t hp ∧
      (∃ a b, (e.Gather w h).2 = a ++ p.events ++ b) ∧
      p.thisEp = "https://" ++ (ms.get ⟨i, hi⟩).Name ++ ":2379" ∧
      p.conn = (e.connectTo w ["https://" ++ (ms.get ⟨i, hi⟩).Name ++ ":2379"]
        (hp ++ [Event.Now])).1 ∧
      newTransportCalls p.events =
        [(⟨e.SSLCAFile, e.SSLCertFile, e.SSLKeyFile⟩, 10 * Second)] ∧
      (clientNewCalls p.events = [] ∨
        clientNewCalls p.events =
          [⟨⟨⟨e.SSLCAFile, e.SSLCertFile, e.SSLKeyFile⟩, 10 * Second⟩,
            ["https://" ++ (ms.get ⟨i, hi⟩).Name ++ ":2379"], 10 * Second⟩]) ∧
      (∀ cli, p.conn = Except.ok cli →
        cli.cfg = ⟨⟨⟨e.SSLCAFile, e.SSLCertFile, e.SSLKeyFile⟩, 10 * Second⟩,
          ["https://" ++ (ms.get ⟨i, hi⟩).Name ++ ":2379"], 10 * Second⟩) ∧
      newTransportCalls (e.connectTo w e.Urls h).2 =
        [(⟨e.SSLCAFile, e.SSLCertFile, e.SSLKeyFile⟩, 10 * Second)] ∧
      cln.cfg = ⟨⟨⟨e.SSLCAFile, e.SSLCertFile, e.SSLKeyFile⟩, 10 * Second⟩, e.Urls,
        10 * Second⟩ := by
  obtain ⟨p, r, t, hp, hit, hpe, -, -, -⟩ := gather_iteration e w h cln ms hseed hlist i hi
  have hev := gather_iteration_events e w h cln ms hseed hlist i p hit
  obtain ⟨hnt, hcn⟩ := probe_connection_calls e w (ms.get ⟨i, hi⟩) r t hp
  have hseed2 := connectTo_ok e w e.Urls h cln (e.connectTo w e.Urls h).2
    (Prod.ext hseed rfl)
  subst hpe
  refine ⟨_, r, t, hp, hit, rfl, hev, rfl, rfl, ?_, ?_, ?_, ?_, ?_⟩
  · rw [hnt]
    exact connectTo_newTransport e w _ _
  · rw [hcn]
    exact connectTo_clientNew e w _ _
  · intro cli hcli
    have h3 := connectTo_ok e w ["https://" ++ (ms.get ⟨i, hi⟩).Name ++ ":2379"]
      (hp ++ [Event.Now]) cli _ (Prod.ext hcli rfl)
    rw [h3.1]
    rfl
  · exact connectTo_newTransport e w _ _
  · rw [hseed2.1]
    rfl

theorem member_connection_witness :
    ∃ p r t hp, sampleCfg.iteration sampleWorld
        (sampleCfg.loopStart sampleWorld [] ⟨sampleCfg.clientConfig sampleCfg.Urls⟩)
        sampleMembers 0 = some p ∧
      p = sampleCfg.probe sampleWorld ⟨"a1", "n1"⟩ r t hp ∧
      p.thisEp = "https://n1:2379" ∧
      clientNewCalls p.events =
        [⟨⟨⟨"ca.pem", "etcd.pem", "etcd-key.pem"⟩, 10 * Second⟩, ["https://n1:2379"],
          10 * Second⟩] := by
  obtain ⟨p, r, t, hp, h1, h2, -, h4, -, -, -, -, -, -⟩ :=
    member_connection sampleCfg sampleWorld [] ⟨sampleCfg.clientConfig sampleCfg.Urls⟩
      sampleMembers rfl rfl 0 (by decide)
  refine ⟨p, r, t, hp, h1, h2, h4, ?_⟩
  have h5 : sampleCfg.iteration sampleWorld
      (sampleCfg.loopStart sampleWorld [] ⟨sampleCfg.clientConfig sampleCfg.Urls⟩)
      sampleMembers 0 = some (sampleCfg.probe sampleWorld ⟨"a1", "n1"⟩ [] []
        (sampleCfg.loopStart sampleWorld [] ⟨sampleCfg.clientConfig sampleCfg.Urls⟩)) := rfl
  rw [h5] at h1
  cases h1
  rfl

/-- C9: a cycle starts with the calls of one `connectTo` for the configured
`Urls`: one `transport.NewTransport` and, when it succeeds, one `client.New`
for the endpoints `Urls`. When that fails the cycle makes no further call, so no
member list request. When it succeeds, the next call is the member list request
through the seed client with a timeout of 20 seconds, and it is the only member
list request of the cycle; when it fails no further call is made, and when it
returns `ms` the calls that follow are those of the loop. -/
theorem seed_connection_then_member_list (e : Etcd2) (w : World) (h : List Event) :
    ((e.connectTo w e.Urls h).2 =
        [Event.NewTransport ⟨e.SSLCAFile, e.SSLCertFile, e.SSLKeyFile⟩ (10 * Second)] ∨
      (e.connectTo w e.Urls h).2 =
        [Event.NewTransport ⟨e.SSLCAFile, e.SSLCertFile, e.SSLKeyFile⟩ (10 * Second),
          Event.ClientNew
            ⟨⟨⟨e.SSLCAFile, e.SSLCertFile, e.SSLKeyFile⟩, 10 * Second⟩, e.Urls, 10 * Second⟩]) ∧
    match (e.connectTo w e.Urls h).1 with
    | Except.error _ =>
      (e.Gather w h).2 = (e.connectTo w e.Urls h).2 ∧ membersListCalls (e.Gather w h).2 = []
    | Except.ok cln =>
      cln.cfg.Endpoints = e.Urls ∧
      membersListCalls (e.Gather w h).2 = [(cln, 20 * Second)] ∧
      ∃ tail, (e.Gather w h).2 =
          (e.connectTo w e.Urls h).2 ++ Event.MembersList cln (20 * Second) :: tail ∧
        match w.membersList (h ++ (e.connectTo w e.Urls h).2) cln (20 * Second) with
        | Except.error _ => tail = []
        | Except.ok ms =>
          tail = (e.gatherLoop w (e.loopStart w h cln) ms LoopState.init).events ∧
          membersListCalls tail = [] := by
  refine ⟨connectTo_events e w e.Urls h, ?_⟩
  have hml := connectTo_membersList e w e.Urls h
  cases hs : (e.connectTo w e.Urls h).1 with
  | error err =>
    simp only []
    rw [gather_seed_error e w h err hs]
    exact ⟨rfl, hml⟩
  | ok cln =>
    simp only []
    have hcln := (connectTo_ok e w e.Urls h cln _ (Prod.ext hs rfl)).1
    refine ⟨by rw [hcln]; rfl, ?_⟩
    cases hl : w.membersList (h ++ (e.connectTo w e.Urls h).2) cln (20 * Second) with
    | error err =>
      rw [gather_list_error e w h cln err hs hl]
      refine ⟨?_, [], rfl, ?_⟩
      · simp only [membersListCalls, List.filterMap_append] at hml ⊢
        rw [hml]
        rfl
      · simp only []
    | ok ms =>
      rw [gather_ok e w h cln ms hs hl]
      have hloop := gatherLoop_membersList e w (e.loopStart w h cln) ms
      refine ⟨?_, _, by simp; rfl, ?_⟩
      · have hloop2 := hloop
        unfold Etcd2.loopStart at hloop2
        simp only [membersListCalls, List.filterMap_append] at hml hloop2 ⊢
        rw [hml, hloop2]
        rfl
      · simp only []
        exact ⟨rfl, hloop⟩

set_option maxRecDepth 10000 in
/-- C10 as stated fails: in `slowWorld` the clock never goes back, the write to
the only member succeeds 19 s after it was issued, within its timeout of 20 s,
and the `response_time` of the record is the `float64` 22000, more than 20000
ms, because the start timestamp is taken before `connectTo`. -/
theorem response_time_exceeds_write_timeout :
    (∀ h ev, slowWorld.clock h ≤ slowWorld.clock (h ++ [ev])) ∧
    ∃ p c, sampleCfg.iteration slowWorld
        (sampleCfg.loopStart slowWorld [] ⟨sampleCfg.clientConfig sampleCfg.Urls⟩)
        [⟨"a1", "n1"⟩] 0 = some p ∧
      (addFieldsCalls (sampleCfg.Gather slowWorld []).2)[0]? = some c ∧
      p.setErr = some none ∧
      c.fields.lookup "is_healthy" = some (FieldValue.int 1) ∧
      slowWorld.clock p.hEnd - slowWorld.clock p.hSet = 19 * Second ∧
      p.elapsed = 22 * Second ∧
      c.fields.lookup "response_time" = some (FieldValue.float 22000) ∧
      (22000 : F64).toRat = 22000 ∧
      ¬ ((22000 : F64).toRat ≤ 20000) := by
  have hval : (22000 : F64) = ⟨6047313952768000, -38⟩ := by decide
  have hrat : (22000 : F64).toRat = 22000 := by
    rw [hval]
    unfold F64.toRat
    norm_num
  constructor
  · intro h ev
    have hc : 0 ≤ slowCost ev := by
      cases ev <;> simp [slowCost]
    simp only [slowWorld, List.map_append, List.sum_append, List.map_cons, List.map_nil,
      List.sum_cons, List.sum_nil]
    omega
  · refine ⟨sampleCfg.probe slowWorld ⟨"a1", "n1"⟩ [] []
      (sampleCfg.loopStart slowWorld [] ⟨sampleCfg.clientConfig sampleCfg.Urls⟩), _,
      rfl, rfl, rfl, ?_, ?_, ?_, ?_, hrat, ?_⟩
    · decide
    · decide
    · decide
    · have hel : (sampleCfg.probe slowWorld ⟨"a1", "n1"⟩ [] []
          (sampleCfg.loopStart slowWorld [] ⟨sampleCfg.clientConfig sampleCfg.Urls⟩)).elapsed
          = 22000000000 := by decide
      have hrec := probe_record sampleCfg slowWorld ⟨"a1", "n1"⟩ [] []
          (sampleCfg.loopStart slowWorld [] ⟨sampleCfg.clientConfig sampleCfg.Urls⟩) (Or.inl rfl)
      show List.lookup "response_time" (sampleCfg.probe slowWorld ⟨"a1", "n1"⟩ [] []
          (sampleCfg.loopStart slowWorld [] ⟨sampleCfg.clientConfig sampleCfg.Urls⟩)).record = _
      rw [hrec, lookup_response_time, hel]
      decide
    · rw [hrat]
      norm_num

/-- C10, amended: the `response_time` of the record of the member at position
`i` is the `float64` product of 1000 and `Duration.Seconds` of the elapsed
duration, the nanoseconds between the start timestamp of the iteration, taken
before `connectTo`, and the clock reading of `time.Since`, taken right after the
health classification. Under a clock that never goes back the elapsed duration
and the `response_time` are not negative, and the elapsed duration is at most
the nanoseconds from the start timestamp to the moment the write is issued (or
skipped) plus the nanoseconds from that moment to the reading of `time.Since`,
so a write that returns within 20 seconds gives an elapsed duration of at most
20 seconds plus the time spent before the write. -/
theorem response_time_elapsed (e : Etcd2) (w : World) (h : List Event) (cln : Client)
    (ms : List Member) (hseed : (e.connectTo w e.Urls h).1 = Except.ok cln)
    (hlist : w.membersList (h ++ (e.connectTo w e.Urls h).2) cln (20 * Second) =
      Except.ok ms) (i : Nat) (hi : i < ms.length)
    (hmono : ∀ h ev, w.clock h ≤ w.clock (h ++ [ev])) :
    ∃ p c r t hp, e.iteration w (e.loopStart w h cln) ms i = some p ∧
      p = e.probe w (ms.get ⟨i, hi⟩) r t hp ∧
      (addFieldsCalls (e.Gather w h).2)[i]? = some c ∧
      c.fields.lookup "response_time" = some (FieldValue.float (p.elapsed.Seconds * 1000)) ∧
      p.start = w.clock hp ∧
      p.elapsed = timeSub (w.clock p.hEnd) p.start ∧
      0 ≤ p.elapsed ∧
      0 ≤ (p.elapsed.Seconds * 1000).toRat ∧
      (∃ conn sev, p.hSet = hp ++ [Event.Now] ++ conn ∧ p.hEnd = p.hSet ++ sev ∧
        (sev = [] ∨ ∃ cli, sev = [Event.KeysSet (healthWrite cli)])) ∧
      p.elapsed ≤ (w.clock p.hSet - p.start) + (w.clock p.hEnd - w.clock p.hSet) ∧
      (w.clock p.hEnd - w.clock p.hSet ≤ 20 * Second →
        p.elapsed ≤ 20 * Second + (w.clock p.hSet - p.start)) := by
  obtain ⟨p, r, t, hp, hit, hpe, hc, hrec, -⟩ := gather_iteration e w h cln ms hseed hlist i hi
  obtain ⟨-, hset, hstart, hel, sev, hend, -, hcase⟩ :=
    probe_cases e w (ms.get ⟨i, hi⟩) r t hp p hpe _ rfl
  have hle : p.start ≤ w.clock p.hEnd := by
    rw [hstart, hend, hset, List.append_assoc, List.append_assoc]
    exact clock_mono_append w hmono hp _
  obtain ⟨hnn, hub⟩ := timeSub_of_le _ _ hle
  rw [← hel] at hnn hub
  have hub2 : p.elapsed ≤ (w.clock p.hSet - p.start) + (w.clock p.hEnd - w.clock p.hSet) := by
    have h1 : (w.clock p.hSet - p.start) + (w.clock p.hEnd - w.clock p.hSet) =
        w.clock p.hEnd - p.start := by ring
    rw [h1]
    exact hub
  refine ⟨p, p.call, r, t, hp, hit, hpe, hc, ?_, hstart, hel, hnn,
    seconds_mul_1000_nonneg _ hnn, ?_, hub2, ?_⟩
  · show List.lookup "response_time" p.record = _
    rw [hrec]
    exact lookup_response_time _ _
  · refine ⟨_, sev, hset, hend, ?_⟩
    rcases hcase with ⟨err, -, hs, -, -⟩ | ⟨cli, -, hs, -, -⟩
    · exact Or.inl hs
    · exact Or.inr ⟨cli, hs⟩
  · intro hw
    have h2 := add_le_add_left hw (w.clock p.hSet - p.start)
    rw [add_comm (w.clock p.hSet - p.start) (20 * Second)] at h2
    exact le_trans hub2 h2

theorem sampleWorld_clock_mono (h : List Event) (ev : Event) :
    sampleWorld.clock h ≤ sampleWorld.clock (h ++ [ev]) := by
  have hc : 0 ≤ sampleCost ev := by
    cases ev <;> simp only [sampleCost] <;> try decide
    split <;> decide
  simp only [sampleWorld, List.map_append, List.sum_append, List.map_cons, List.map_nil,
    List.sum_cons, List.sum_nil]
  omega

theorem response_time_elapsed_witness :
    (∀ h ev, sampleWorld.clock h ≤ sampleWorld.clock (h ++ [ev])) ∧
    ∃ p c, sampleCfg.iteration sampleWorld
        (sampleCfg.loopStart sampleWorld [] ⟨sampleCfg.clientConfig sampleCfg.Urls⟩)
        sampleMembers 0 = some p ∧
      (addFieldsCalls (sampleCfg.Gather sampleWorld []).2)[0]? = some c ∧
      c.fields.lookup "response_time" = some (FieldValue.float (p.elapsed.Seconds * 1000)) ∧
      0 ≤ p.elapsed ∧
      0 ≤ (p.elapsed.Seconds * 1000).toRat ∧
      sampleWorld.clock p.hEnd - sampleWorld.clock p.hSet ≤ 20 * Second ∧
      p.elapsed ≤ 20 * Second + (sampleWorld.clock p.hSet - p.start) := by
  refine ⟨sampleWorld_clock_mono, ?_⟩
  obtain ⟨p, c, r, t, hp, h1, -, h3, h4, -, -, h7, h8, -, -, h11⟩ :=
    response_time_elapsed sampleCfg sampleWorld [] ⟨sampleCfg.clientConfig sampleCfg.Urls⟩
      sampleMembers rfl rfl 0 (by decide) sampleWorld_clock_mono
  have h5 : sampleCfg.iteration sampleWorld
      (sampleCfg.loopStart sampleWorld [] ⟨sampleCfg.clientConfig sampleCfg.Urls⟩)
      sampleMembers 0 = some (sampleCfg.probe sampleWorld ⟨"a1", "n1"⟩ [] []
        (sampleCfg.loopStart sampleWorld [] ⟨sampleCfg.clientConfig sampleCfg.Urls⟩)) := rfl
  have hw : sampleWorld.clock p.hEnd - sampleWorld.clock p.hSet ≤ 20 * Second := by
    rw [h5] at h1
    cases h1
    decide
  exact ⟨p, c, h1, h3, h4, h7, h8, hw, h11 hw⟩

end Etcd2Spec
